import Mathlib

/-!
# wsd: a verification development

A shallow embedding of `main.go` of the `wsd` WebSocket terminal client and
theorems about it.

Conventions of the embedding

* A Go `string` is a `List Char` (`GoString`), and so is the `[]byte` made from
  one by `[]byte(s)`; its length in bytes is `byteLen`, the length of its UTF-8
  encoding.  The bytes read from the connection are a `List Byte`.
* A Go `error` value is a `GoError`: the sentinel `io.EOF` or any other error.
* The channels `out` and `errors` are the lists of the values sent on them,
  oldest first; a loop that ranges over one is a recursion over that list.
* The channel `in` carries slices of the one buffer of `inLoop`.  The reader and
  the message sink are two goroutines sharing that buffer, so they are a state
  machine whose steps are taken in the order that a schedule gives.
* Code that talks to the outside world returns what it did as data: the
  values sent on each channel, the calls made on the connection, the trace of
  prints and process exits.
* Functions of the Go standard library and of `golang.org/x/net/websocket`
  that the program calls are modelled from their documentation; each such
  definition says so.
-/

namespace wsd

/-- A Go string (also used for `[]byte`): its sequence of characters. -/
abbrev GoString := List Char

/-- A byte. -/
abbrev Byte := Fin 256

/-- A Go `error` value that is not nil: `io.EOF`, or some other error
identified by its message.  `err == io.EOF` in the source is `e = GoError.EOF`. -/
inductive GoError where
  | EOF
  | other (msg : GoString)
  deriving DecidableEq

/-! ## Standard library: `strings`, `unicode` -/

/-- Go `unicode.IsSpace`, from its documentation: the Latin-1 spaces
`\t \n \v \f \r`, space, U+0085, U+00A0, and the other code points with the
Unicode White_Space property. -/
def unicode.IsSpace (r : Char) : Bool :=
  let n := r.toNat
  (0x09 ≤ n && n ≤ 0x0D) || n == 0x20 || n == 0x85 || n == 0xA0 || n == 0x1680 ||
    (0x2000 ≤ n && n ≤ 0x200A) || n == 0x2028 || n == 0x2029 || n == 0x202F ||
    n == 0x205F || n == 0x3000

/-- Go `strings.TrimSpace`, from its documentation: the string with all leading
and trailing white space (as defined by `unicode.IsSpace`) removed.  The library
computes it as `TrimRightFunc(TrimLeftFunc(s, IsSpace), IsSpace)`. -/
def strings.TrimSpace (s : GoString) : GoString :=
  ((s.dropWhile unicode.IsSpace).reverse.dropWhile unicode.IsSpace).reverse

/-- The first occurrence of the one-character separator in `s`: the text before
it and the text after it (`strings.Index` followed by the two slicings that
`strings.SplitN` performs), or `none` when the separator does not occur. -/
def strings.cut (sep : Char) : GoString → Option (GoString × GoString)
  | [] => none
  | c :: cs =>
    if c = sep then some ([], cs)
    else match strings.cut sep cs with
      | some (a, b) => some (c :: a, b)
      | none => none

/-- Go `strings.SplitN(s, sep, n)` for a one-character separator and `n ≥ 0`, from
its documentation: `n = 0` gives no substring; otherwise at most `n` substrings,
the last one being the unsplit remainder. -/
def strings.SplitN (s : GoString) (sep : Char) : Nat → List GoString
  | 0 => []
  | 1 => [s]
  | n + 2 =>
    match strings.cut sep s with
    | some (a, b) => a :: strings.SplitN b sep (n + 1)
    | none => [s]

/-! ## `Header`, `Headers` (main.go lines 21-47) -/

/-- The struct `Header`: a name `H` and a value `V`. -/
structure Header where
  H : GoString
  V : GoString
  deriving DecidableEq

/-- The struct `Headers`: the slice `Values`. -/
structure Headers where
  Values : List Header
  deriving DecidableEq

/-- The method `(h *Headers) Set(s string) error` (lines 34-41).  The receiver is
passed in and returned: the result is the header list after the call and the
error (`none` for nil). -/
def Headers.Set (h : Headers) (s : GoString) : Headers × Option GoError :=
  let header := strings.SplitN s ':' 2
  match header with
  | [a, b] => ({ Values := h.Values ++ [⟨strings.TrimSpace a, strings.TrimSpace b⟩] }, none)
  | _ => (h, some (GoError.other "Mallformed header".toList))

/-! ## Standard library: `net/textproto`, `net/http` -/

/-- Go `textproto.validHeaderFieldByte`, from RFC 7230: the bytes allowed in a
header field name (letters, digits and the fifteen token punctuation bytes). -/
def textproto.validHeaderFieldByte (c : Char) : Bool :=
  let n := c.toNat
  (0x30 ≤ n && n ≤ 0x39) || (0x41 ≤ n && n ≤ 0x5A) || (0x61 ≤ n && n ≤ 0x7A) ||
    n == 0x21 || n == 0x23 || n == 0x24 || n == 0x25 || n == 0x26 || n == 0x27 ||
    n == 0x2A || n == 0x2B || n == 0x2D || n == 0x2E || n == 0x5E || n == 0x5F ||
    n == 0x60 || n == 0x7C || n == 0x7E

/-- The canonicalising pass of `textproto.CanonicalMIMEHeaderKey`: upper case for
the first letter and for a letter after a hyphen, lower case for the others. -/
def textproto.canonicalLoop : Bool → GoString → GoString
  | _, [] => []
  | upper, c :: cs =>
    let c1 := if upper then c.toUpper else c.toLower
    c1 :: textproto.canonicalLoop (c1 == '-') cs

/-- Go `textproto.CanonicalMIMEHeaderKey` (which `http.Header.Add` applies to the
key), from its documentation: "converts the first letter and any letter
following a hyphen to upper case; the rest are converted to lowercase. If s
contains a space or invalid header field bytes, it is returned without
modifications." -/
def textproto.CanonicalMIMEHeaderKey (s : GoString) : GoString :=
  if s.all textproto.validHeaderFieldByte then textproto.canonicalLoop true s else s

/-- Go `http.Header`, a `map[string][]string`, as its lookup: `hh k` is `hh[k]`,
the values stored under the key `k`, the empty slice when the key is absent.  A
map has no order among its keys, and neither has this. -/
abbrev http.Header := GoString → List GoString

/-- The empty header map `http.Header(make(map[string][]string))`. -/
def http.Header.empty : http.Header := fun _ => []

/-- Go `http.Header.Add`, from its source (`textproto.MIMEHeader.Add`):
`key = CanonicalMIMEHeaderKey(key); h[key] = append(h[key], value)`. -/
def http.Header.Add (hh : http.Header) (key value : GoString) : http.Header :=
  fun k => if k = textproto.CanonicalMIMEHeaderKey key then hh k ++ [value] else hh k

/-- The method `(h Headers) PopulateHttp(hh http.Header)` (lines 43-47): one `Add`
per element of `Values`, in slice order.  The map is passed in and returned. -/
def Headers.PopulateHttp (h : Headers) (hh : http.Header) : http.Header :=
  h.Values.foldl (fun acc v => http.Header.Add acc v.H v.V) hh

/-! ## Terminal output and process events -/

/-- The colours of the `color.New(...).SprintFunc()` values of lines 57-61. -/
inductive Colour where
  | red | magenta | green | yellow | cyan
  deriving DecidableEq

/-- An argument of a print call: a text wrapped by one of the colour functions. -/
structure Arg where
  colour : Option Colour
  text : GoString
  deriving DecidableEq

/-- A print argument passed as it is, without a colour function. -/
def plain (s : GoString) : Arg := ⟨none, s⟩
/-- The package variable `red`. -/
def red (s : GoString) : Arg := ⟨some Colour.red, s⟩
/-- The package variable `magenta`. -/
def magenta (s : GoString) : Arg := ⟨some Colour.magenta, s⟩
/-- The package variable `green`. -/
def green (s : GoString) : Arg := ⟨some Colour.green, s⟩
/-- The package variable `yellow`. -/
def yellow (s : GoString) : Arg := ⟨some Colour.yellow, s⟩
/-- The package variable `cyan`. -/
def cyan (s : GoString) : Arg := ⟨some Colour.cyan, s⟩

/-- The method `Error()` of an error value: what `%v` prints for it. -/
def GoError.Error : GoError → GoString
  | GoError.EOF => "EOF".toList
  | GoError.other msg => msg

/-- What the program does that is visible from outside, one constructor per kind
of statement of `main.go`. -/
inductive Event where
  /-- A call `fmt.Printf(format, args...)` or `fmt.Fprintf(os.Stdout, format, args...)`. -/
  | Printf (format : String) (args : List Arg)
  /-- A call `fmt.Printf(format, colour(string(msg)))` whose one argument is made
  from bytes. -/
  | PrintBytes (format : String) (colour : Colour) (msg : List Byte)
  /-- A call `fmt.Print(s)`. -/
  | Print (s : String)
  /-- A call `flag.PrintDefaults()`. -/
  | PrintDefaults
  /-- The flag package reporting a flag whose `Set` failed. -/
  | flagError (err : GoError)
  /-- A call `os.Exit(code)`. -/
  | Exit (code : Nat)
  /-- The call `dial(url, protocol, origin, headers)`. -/
  | dial (url protocol origin : GoString) (headers : Headers)
  /-- A call `panic(err)`. -/
  | panic (err : GoError)
  /-- The deferred `ws.Close()` running; `live` tells whether `ws` is a connection. -/
  | Close (live : Bool)
  /-- A call `wg.Add(n)`. -/
  | wgAdd (n : Nat)
  /-- A channel made by `make(chan ...)` and assigned to the named variable. -/
  | makeChan (name : String)
  /-- A `go` statement starting the named function. -/
  | go (fn : String)
  /-- One call of `scanner.Scan()` on standard input, with its result. -/
  | Scan (ok : Bool)
  /-- A send `out <- msg`. -/
  | sendOut (msg : GoString)
  /-- A call `wg.Wait()`, which blocks: no `wg.Done()` exists in the program. -/
  | wgWait
  deriving DecidableEq

/-! ## The connection loops (lines 75-117) -/

/-- What arrives on the connection: the payload of a data frame, or a failure
that the next read reports. -/
inductive Incoming where
  | frame (payload : List Byte)
  | failure (err : GoError)
  deriving DecidableEq

/-- The reading side of a `*websocket.Conn`: the unread rest of the frame being
read (its `frameReader`), and what arrives after it. -/
structure ReadSide where
  rest : List Byte
  incoming : List Incoming
  deriving DecidableEq

/-- The result of a `ws.Read(msg)` that returns: the connection afterwards, the
buffer afterwards, and the results `n` and `err` (`none` for nil). -/
structure ReadResult where
  ws : ReadSide
  msg : List Byte
  n : Nat
  err : Option GoError
  deriving DecidableEq

/-- The read `ws.frameReader.Read(msg)` on a frame with unread bytes `rest`: it
copies as many of them as fit into the front of `msg`, and leaves the others
for the next read. -/
def Conn.readFrame (rest : List Byte) (more : List Incoming) (msg : List Byte) : ReadResult :=
  { ws := { rest := rest.drop msg.length, incoming := more }
    msg := rest.take msg.length ++ msg.drop (rest.take msg.length).length
    n := (rest.take msg.length).length
    err := none }

/-- The part of `websocket.Conn.Read` that runs when no frame is being read: it
takes the next frame, goes on to the one after when the frame has no bytes
(`goto again`), and returns the failure when that is what arrives.  `none`: the
call blocks, nothing has arrived. -/
def Conn.readNext : List Incoming → List Byte → Option ReadResult
  | [], _ => none
  | Incoming.failure err :: more, msg =>
    some { ws := { rest := [], incoming := more }, msg := msg, n := 0, err := some err }
  | Incoming.frame payload :: more, msg =>
    if payload = [] then Conn.readNext more msg
    else some (Conn.readFrame payload more msg)

/-- The method `websocket.Conn.Read(msg)`, from its source: it reads from the frame
being read while that has bytes left, so that a frame larger than `msg` is
returned over several calls, and otherwise from the next frame. -/
def Conn.Read (ws : ReadSide) (msg : List Byte) : Option ReadResult :=
  if ws.rest = [] then Conn.readNext ws.incoming msg
  else some (Conn.readFrame ws.rest ws.incoming msg)

/-- Where the goroutine of `inLoop` is: about to call `ws.Read` (line 82), or
blocked in the send `in <- msg[:n]` (line 89). -/
inductive ReaderAt where
  | read
  | send (n : Nat)
  deriving DecidableEq

/-- Where the goroutine of `printReceivedMessages` is: blocked in the receive of
`range in` (line 105), or holding the slice `msg[:n]` that it received, before
`string(msg)` of line 106. -/
inductive SinkAt where
  | receive
  | print (n : Nat)
  deriving DecidableEq

/-- The reader, the message sink and what they share.  A slice `msg[:n]` is kept
as its length `n`: its bytes are those of the buffer `msg` when they are read.
`inq` is what the slice held at the moment of each send, `printed` what the sink
printed; `errors` are the values sent on `errors`. -/
structure Pipeline where
  ws : ReadSide
  msg : List Byte
  reader : ReaderAt
  sink : SinkAt
  reads : Nat
  errors : List GoError
  inq : List (List Byte)
  printed : List Event
  deriving DecidableEq

/-- One turn of the loop of `inLoop` (lines 78-90) up to its send: `ws.Read(msg)`
overwrites the buffer; on an error the error is sent on `errors` (whose
receiver is taken to be ready) and the loop continues; otherwise the reader
blocks in `in <- msg[:n]`.  Nothing happens while the reader is blocked in a
send, or while `ws.Read` has nothing to return. -/
def inLoop (s : Pipeline) : Pipeline :=
  match s.reader with
  | ReaderAt.send _ => s
  | ReaderAt.read =>
    match Conn.Read s.ws s.msg with
    | none => s
    | some r =>
      match r.err with
      | some err =>
        { s with ws := r.ws, msg := r.msg, reads := s.reads + 1, errors := s.errors ++ [err] }
      | none =>
        { s with ws := r.ws, msg := r.msg, reads := s.reads + 1, reader := ReaderAt.send r.n }

/-- The unbuffered channel `in` (line 169): the send of line 89 and the receive of
line 105 complete together, when the reader is in the one and the sink in the
other.  The sink then holds the slice, and the reader goes on to its next read. -/
def chanIn (s : Pipeline) : Pipeline :=
  match s.reader, s.sink with
  | ReaderAt.send n, SinkAt.receive =>
    { s with reader := ReaderAt.read, sink := SinkAt.print n, inq := s.inq ++ [s.msg.take n] }
  | _, _ => s

/-- The body of the loop of `printReceivedMessages` (line 106): `string(msg)` copies
the bytes that the slice holds now, and they are printed. -/
def printReceivedMessages (s : Pipeline) : Pipeline :=
  match s.sink with
  | SinkAt.receive => s
  | SinkAt.print n =>
    { s with sink := SinkAt.receive,
             printed := s.printed ++ [Event.PrintBytes "\r< %s\n> " Colour.cyan (s.msg.take n)] }

/-- The goroutine that takes the next step. -/
inductive Step where
  | inLoop
  | chanIn
  | printReceivedMessages
  deriving DecidableEq

/-- One step of the pipeline. -/
def Pipeline.step (s : Pipeline) : Step → Pipeline
  | Step.inLoop => wsd.inLoop s
  | Step.chanIn => wsd.chanIn s
  | Step.printReceivedMessages => wsd.printReceivedMessages s

/-- The pipeline after the steps of a schedule, taken in order. -/
def Pipeline.run (schedule : List Step) (s : Pipeline) : Pipeline :=
  schedule.foldl Pipeline.step s

/-- The pipeline when `main` has started the two goroutines (lines 176-177):
`msg = make([]byte, 512)` (line 76), nothing read, nothing printed. -/
def Pipeline.start (incoming : List Incoming) : Pipeline :=
  { ws := { rest := [], incoming := incoming }
    msg := List.replicate 512 0
    reader := ReaderAt.read
    sink := SinkAt.receive
    reads := 0
    errors := []
    inq := []
    printed := [] }

/-- What `printErrors` did: the events in order, and the errors still on the
channel, never received, when the process exited. -/
structure PrintErrorsResult where
  events : List Event
  unread : List GoError
  deriving DecidableEq

/-- The function `printErrors` (lines 93-102) over the errors sent on the channel. -/
def printErrors : List GoError → PrintErrorsResult
  | [] => { events := [], unread := [] }
  | err :: rest =>
    if err = GoError.EOF then
      { events := [Event.Printf "\r✝ %v - connection closed by remote\n" [magenta err.Error],
                   Event.Exit 0],
        unread := rest }
    else
      let r := printErrors rest
      { r with events := Event.Printf "\rerr %v\n> " [red err.Error] :: r.events }

/-- The state of `outLoop` as seen from outside: the arguments of the `ws.Write`
calls made so far, in call order, and the values sent so far on `errors`. -/
structure OutLoopState where
  written : List GoString
  errors : List GoError
  deriving DecidableEq

/-- The `for msg := range out` loop of `outLoop` (lines 111-116).  `Write i msg` is
the error (`none` for nil) that the connection returns to the call number `i`
(counted from 0) of `ws.Write`, made with `msg`. -/
def outLoopFrom (Write : Nat → GoString → Option GoError) :
    List GoString → OutLoopState → OutLoopState
  | [], st => st
  | msg :: rest, st =>
    match Write st.written.length msg with
    | some err =>
      outLoopFrom Write rest { written := st.written ++ [msg], errors := st.errors ++ [err] }
    | none =>
      outLoopFrom Write rest { st with written := st.written ++ [msg] }

/-- The function `outLoop` (lines 110-117), started with nothing written. -/
def outLoop (Write : Nat → GoString → Option GoError) (out : List GoString) : OutLoopState :=
  outLoopFrom Write out { written := [], errors := [] }

/-! ## Standard library: `bufio.Scanner` -/

/-- Go `utf8.RuneLen`: the number of bytes of the UTF-8 encoding of a character. -/
def utf8.RuneLen (r : Char) : Nat :=
  if r.toNat < 0x80 then 1
  else if r.toNat < 0x800 then 2
  else if r.toNat < 0x10000 then 3
  else 4

/-- Go `len(s)`: the number of bytes of a string, the sum of the encoded lengths of
its characters. -/
def byteLen : GoString → Nat
  | [] => 0
  | c :: cs => utf8.RuneLen c + byteLen cs

/-- Go `bufio.MaxScanTokenSize`: the size in bytes of the buffer of a `Scanner`,
which bounds the length of a token together with its delimiter. -/
def bufio.MaxScanTokenSize : Nat := 64 * 1024

/-- Go `bufio.dropCR`: drops one trailing carriage return. -/
def bufio.dropCR (data : GoString) : GoString :=
  if data.getLast? = some '\r' then data.dropLast else data

/-- The tokens that successive `scanner.Scan()` calls of a `bufio.NewScanner`
(split function `ScanLines`, default buffer) return on the given input, until
`Scan` returns false; `cur` is the part of the current line already buffered,
and lengths are counted in bytes.  From the documentation: each line is returned "stripped of any trailing
end-of-line marker", which is "one optional carriage return followed by one
mandatory newline"; "the last non-empty line of input will be returned even if
it has no newline"; "scanning stops unrecoverably at EOF, the first I/O error,
or a token too large to fit in the buffer". -/
def bufio.scanLines : GoString → GoString → List GoString
  | [], cur =>
    if cur = [] then []
    else if byteLen cur < bufio.MaxScanTokenSize then [bufio.dropCR cur]
    else []
  | c :: cs, cur =>
    if c = '\n' then
      if byteLen cur < bufio.MaxScanTokenSize then bufio.dropCR cur :: bufio.scanLines cs []
      else []
    else bufio.scanLines cs (cur ++ [c])

/-! ## Connecting (lines 119-134) -/

/-- Go `tls.Config`, the one field the program sets. -/
structure tls.Config where
  InsecureSkipVerify : Bool
  deriving DecidableEq

/-- The `websocket.Config` of `golang.org/x/net/websocket`: the fields that
`NewConfig` and `dial` set. -/
structure websocket.Config where
  Location : GoString
  Origin : GoString
  Protocol : List GoString
  Version : Nat
  TlsConfig : Option tls.Config
  Header : http.Header

/-- An open connection `*websocket.Conn`, identified by the address dialled. -/
structure Conn where
  remote : GoString
  deriving DecidableEq

/-- The world outside the program that `dial` meets. -/
structure Env where
  /-- The error of `url.ParseRequestURI` on a string (`none` when it parses). -/
  ParseRequestURI : GoString → Option GoError
  /-- The result `(ws, err)` of `websocket.DialConfig` on a configuration: the
  network, the server and the handshake. -/
  DialConfig : websocket.Config → Option Conn × Option GoError

/-- The function `websocket.NewConfig(server, origin)`, from its source: it parses the
two addresses and returns a configuration with version 13, an empty header map
and every other field at its zero value. -/
def websocket.NewConfig (env : Env) (server origin : GoString) :
    Option websocket.Config × Option GoError :=
  match env.ParseRequestURI server with
  | some err => (none, some err)
  | none =>
    match env.ParseRequestURI origin with
    | some err => (none, some err)
    | none =>
      (some { Location := server, Origin := origin, Protocol := [], Version := 13,
              TlsConfig := none, Header := http.Header.empty }, none)

/-- What a call of `dial` did: the configuration it handed to
`websocket.DialConfig` (`none` when it returned before), and its results. -/
structure DialResult where
  config : Option websocket.Config
  ws : Option Conn
  err : Option GoError

/-- The function `dial` (lines 119-134).  The package variable `insecureSkipVerify`
that it reads is its second argument. -/
def dial (env : Env) (insecureSkipVerify : Bool) (url protocol origin : GoString)
    (headers : Headers) : DialResult :=
  match websocket.NewConfig env url origin with
  | (_, some err) => { config := none, ws := none, err := some err }
  | (none, none) => { config := none, ws := none, err := none }
  | (some config, none) =>
    let config := if protocol ≠ [] then { config with Protocol := [protocol] } else config
    let config := { config with TlsConfig := some { InsecureSkipVerify := insecureSkipVerify } }
    let config := { config with Header := headers.PopulateHttp config.Header }
    let r := env.DialConfig config
    { config := some config, ws := r.1, err := r.2 }

/-- Go `crypto/tls` certificate verification of a client, from the documentation
of `InsecureSkipVerify`: "controls whether a client verifies the server's
certificate chain and host name. If InsecureSkipVerify is true, crypto/tls
accepts any certificate presented by the server"; a nil configuration verifies. -/
def tls.verify (c : Option tls.Config) (certValid : Bool) : Option GoError :=
  match c with
  | some cfg =>
    if cfg.InsecureSkipVerify || certValid then none
    else some (GoError.other "x509: certificate is not valid".toList)
  | none =>
    if certValid then none else some (GoError.other "x509: certificate is not valid".toList)

/-- A world with a reachable `wss` server whose certificate is valid or not:
every address parses, and `websocket.DialConfig` fails exactly when the TLS
verification of the server's certificate does. -/
def tlsServer (certValid : Bool) : Env where
  ParseRequestURI := fun _ => none
  DialConfig := fun config =>
    match tls.verify config.TlsConfig certValid with
    | some err => (none, some err)
    | none => (some { remote := config.Location }, none)

/-! ## Flags (lines 49-73) -/

/-- The package variables that the flags set (lines 50-56). -/
structure Globals where
  origin : GoString
  url : GoString
  protocol : GoString
  headers : Headers
  displayHelp : Bool
  displayVersion : Bool
  insecureSkipVerify : Bool
  deriving DecidableEq

/-- The function `init` (lines 65-73): every variable at the default value of its flag;
`headers` keeps its zero value. -/
def init : Globals :=
  { origin := "http://localhost/".toList
    url := "ws://localhost:1337/ws".toList
    protocol := []
    headers := { Values := [] }
    displayHelp := false
    displayVersion := false
    insecureSkipVerify := false }

/-- One occurrence on the command line of a flag registered in `init`, with its value. -/
inductive FlagArg where
  | origin (v : GoString)
  | url (v : GoString)
  | protocol (v : GoString)
  | insecureSkipVerify (v : Bool)
  | help (v : Bool)
  | version (v : Bool)
  | H (v : GoString)
  deriving DecidableEq

/-- The flag package setting one flag: the variable bound by `StringVar` or
`BoolVar` is assigned, and for `-H` (bound by `flag.Var`) `headers.Set` is called. -/
def flag.set (g : Globals) : FlagArg → Globals × Option GoError
  | FlagArg.origin v => ({ g with origin := v }, none)
  | FlagArg.url v => ({ g with url := v }, none)
  | FlagArg.protocol v => ({ g with protocol := v }, none)
  | FlagArg.insecureSkipVerify v => ({ g with insecureSkipVerify := v }, none)
  | FlagArg.help v => ({ g with displayHelp := v }, none)
  | FlagArg.version v => ({ g with displayVersion := v }, none)
  | FlagArg.H v =>
    match g.headers.Set v with
    | (h, err) => ({ g with headers := h }, err)

/-- Go `flag.Parse()`: the flags are set in command-line order, and parsing stops
at the first one whose `Set` returns an error. -/
def flag.Parse : List FlagArg → Globals → Globals × Option GoError
  | [], g => (g, none)
  | a :: rest, g =>
    match flag.set g a with
    | (g1, none) => flag.Parse rest g1
    | (g1, some err) => (g1, some err)

/-! ## `main` (lines 136-190) -/

/-- The constant `Version`. -/
def Version : GoString := "0.1.0".toList

/-- The loop `for scanner.Scan() { out <- []byte(scanner.Text()); fmt.Print("> ") }`
(lines 184-187) over the tokens that the scanner returns. -/
def scanLoop : List GoString → List Event
  | [] => [Event.Scan false]
  | text :: rest => Event.Scan true :: Event.sendOut text :: Event.Print "> " :: scanLoop rest

/-- The input loop of `main` (lines 181-187) on the given standard input. -/
def inputLoop (stdin : GoString) : List Event :=
  Event.Print "> " :: scanLoop (bufio.scanLines stdin [])

/-- The function `main` (lines 136-190) as the trace of what it does, given the
world, the program name `os.Args[0]`, the flags on the command line and the
content of standard input.  `flag.CommandLine` handles errors with
`flag.ExitOnError`: a failed `Set` is reported and the process exits with
status 2. -/
def main (env : Env) (arg0 : GoString) (args : List FlagArg) (stdin : GoString) : List Event :=
  match flag.Parse args init with
  | (_, some err) => [Event.flagError err, Event.Exit 2]
  | (g, none) =>
    if g.displayVersion then
      [Event.Printf "%s version %s\n" [plain arg0, plain Version], Event.Exit 0]
    else if g.displayHelp then
      [Event.Printf "Usage of %s:\n" [plain arg0], Event.PrintDefaults, Event.Exit 0]
    else
      let r := dial env g.insecureSkipVerify g.url g.protocol g.origin g.headers
      let connecting :=
        if g.protocol ≠ [] then
          Event.Printf "connecting to %s via %s from %s...\n"
            [yellow g.url, yellow g.protocol, yellow g.origin]
        else
          Event.Printf "connecting to %s from %s...\n" [yellow g.url, yellow g.origin]
      match r.err with
      | some err =>
        [Event.dial g.url g.protocol g.origin g.headers, connecting, Event.panic err,
          Event.Close r.ws.isSome]
      | none =>
        [Event.dial g.url g.protocol g.origin g.headers, connecting,
          Event.Printf "successfully connected to %s\n\n" [green g.url],
          Event.wgAdd 3,
          Event.makeChan "errors", Event.makeChan "in", Event.makeChan "out",
          Event.go "inLoop", Event.go "printReceivedMessages", Event.go "printErrors",
          Event.go "outLoop"]
        ++ inputLoop stdin ++ [Event.wgWait]

/-! ## Observations on traces, used to state the theorems -/

/-- Whether an event is a process exit `os.Exit`. -/
def Event.isExit : Event → Bool
  | Event.Exit _ => true
  | _ => false

/-- Whether an event belongs to the running pipeline: a queue created, a loop
started, the success message, a prompt, a read of operator input, a send. -/
def Event.isPipeline : Event → Bool
  | Event.makeChan _ => true
  | Event.go _ => true
  | Event.wgAdd _ => true
  | Event.Print _ => true
  | Event.Scan _ => true
  | Event.sendOut _ => true
  | Event.wgWait => true
  | Event.Printf format _ => format == "successfully connected to %s\n\n"
  | _ => false

/-- Whether an event is a `panic`. -/
def Event.isPanic : Event → Bool
  | Event.panic _ => true
  | _ => false

/-- Whether an event is a call of `dial`. -/
def Event.isDial : Event → Bool
  | Event.dial _ _ _ _ => true
  | _ => false

/-- The messages sent on `out`, in order. -/
def sentOut (trace : List Event) : List GoString :=
  trace.filterMap fun e =>
    match e with
    | Event.sendOut msg => some msg
    | _ => none

/-- The number of prompts `fmt.Print("> ")` in a trace. -/
def prompts (trace : List Event) : Nat :=
  trace.count (Event.Print "> ")

/-- The warning that `printErrors` prints for an error other than `io.EOF`. -/
def warning (err : GoError) : Event :=
  Event.Printf "\rerr %v\n> " [red err.Error]

/-- The notice that `printErrors` prints for `io.EOF`. -/
def closedNotice : Event :=
  Event.Printf "\r✝ %v - connection closed by remote\n" [magenta GoError.EOF.Error]

/-- An arrival on the connection used to evaluate the inbound path: one read that
fails with a transient error, then the three one-byte messages `a`, `b`, `c`. -/
def errorThenABC : List Incoming :=
  [Incoming.failure (GoError.other "boom".toList), Incoming.frame [97], Incoming.frame [98],
   Incoming.frame [99]]

/-- A schedule in which the sink prints each message before the reader reads again. -/
def sinkFirst : List Step :=
  [Step.inLoop,
   Step.inLoop, Step.chanIn, Step.printReceivedMessages,
   Step.inLoop, Step.chanIn, Step.printReceivedMessages,
   Step.inLoop, Step.chanIn, Step.printReceivedMessages]

/-- A schedule in which the reader, once its send is received, reads again
before the sink runs: after the failed read, the reader reads `a` and hands the
slice over, reads `b` and blocks in its send; the sink prints, receives and
prints again; the reader reads `c` and hands it over; the sink prints. -/
def readerFirst : List Step :=
  [Step.inLoop,
   Step.inLoop, Step.chanIn,
   Step.inLoop,
   Step.printReceivedMessages, Step.chanIn, Step.printReceivedMessages,
   Step.inLoop, Step.chanIn,
   Step.printReceivedMessages]

theorem outLoopFrom_eq (Write : Nat → GoString → Option GoError) (out : List GoString)
    (st : OutLoopState) :
    outLoopFrom Write out st =
      { written := st.written ++ out,
        errors := st.errors ++
          (out.enumFrom st.written.length).filterMap fun p => Write p.1 p.2 } := by
  induction out generalizing st with
  | nil => simp [outLoopFrom]
  | cons msg rest ih =>
    cases hw : Write st.written.length msg with
    | none => simp [outLoopFrom, hw, ih, List.enumFrom_cons, List.filterMap_cons]
    | some err => simp [outLoopFrom, hw, ih, List.enumFrom_cons, List.filterMap_cons]

/-- C1: for every sequence `out` of queued messages and every behaviour `Write` of
the connection, `outLoop` calls `ws.Write` once per message, with the queued bytes,
in queue order (so a failed send is neither retried nor stops the loop), and
sends on `errors` exactly the errors of the failed calls, in order. -/
theorem C1_outLoop_writes_each_message_once (Write : Nat → GoString → Option GoError)
    (out : List GoString) :
    (outLoop Write out).written = out ∧
    (outLoop Write out).written.length = out.length ∧
    (outLoop Write out).errors = out.enum.filterMap (fun p => Write p.1 p.2) ∧
    ∀ a b : List GoString, outLoop Write (a ++ b) = outLoopFrom Write b (outLoop Write a) := by
  refine ⟨?_, ?_, ?_, ?_⟩
  · simp [outLoop, outLoopFrom_eq]
  · simp [outLoop, outLoopFrom_eq]
  · simp [outLoop, outLoopFrom_eq, List.enum]
  · intro a b
    simp [outLoop, outLoopFrom_eq, List.enumFrom_append, List.filterMap_append]

theorem split_at_first {α : Type} [DecidableEq α] (sep : α) (s : List α) (h : sep ∈ s) :
    ∃ pre post, s = pre ++ sep :: post ∧ sep ∉ pre := by
  induction s with
  | nil => simp at h
  | cons c cs ih =>
    by_cases hc : c = sep
    · exact ⟨[], cs, by simp [hc], by simp⟩
    · have hcs : sep ∈ cs := by
        rcases List.mem_cons.mp h with h1 | h1
        · exact absurd h1.symm hc
        · exact h1
      obtain ⟨pre, post, hs, hp⟩ := ih hcs
      refine ⟨c :: pre, post, by simp [hs], ?_⟩
      intro hm
      rcases List.mem_cons.mp hm with h1 | h1
      · exact hc h1.symm
      · exact hp h1

theorem printErrors_no_EOF (pre : List GoError) (h : GoError.EOF ∉ pre) :
    printErrors pre = { events := pre.map warning, unread := [] } := by
  induction pre with
  | nil => rfl
  | cons e rest ih =>
    have he : e ≠ GoError.EOF := fun hc => h (by simp [hc])
    have hr : GoError.EOF ∉ rest := fun hc => h (by simp [hc])
    simp [printErrors, he, ih hr, warning]

theorem printErrors_at_EOF (pre post : List GoError) (h : GoError.EOF ∉ pre) :
    printErrors (pre ++ GoError.EOF :: post) =
      { events := pre.map warning ++ [closedNotice, Event.Exit 0], unread := post } := by
  induction pre with
  | nil => simp [printErrors, closedNotice]
  | cons e rest ih =>
    have he : e ≠ GoError.EOF := fun hc => h (by simp [hc])
    have hr : GoError.EOF ∉ rest := fun hc => h (by simp [hc])
    simp [printErrors, he, ih hr, warning]

theorem filter_isExit_warning (pre : List GoError) :
    (pre.map warning).filter Event.isExit = [] := by
  induction pre with
  | nil => rfl
  | cons e rest ih => simp [warning, Event.isExit, ih]

/-- C2: when the errors on the channel are `pre`, then `io.EOF`, then `post`, with no
`io.EOF` in `pre`, `printErrors` prints one warning per error of `pre`, then the
"connection closed by remote" notice, then exits with status 0; that is its only
exit, and the errors of `post` are never received.  On errors without `io.EOF`
it prints one warning each and never exits.  Every sequence that contains
`io.EOF` splits in this way at its first `io.EOF`. -/
theorem C2_printErrors_exits_once_at_first_EOF (pre post : List GoError)
    (h : GoError.EOF ∉ pre) :
    printErrors (pre ++ GoError.EOF :: post) =
      { events := pre.map warning ++ [closedNotice, Event.Exit 0], unread := post } ∧
    (printErrors (pre ++ GoError.EOF :: post)).events.filter Event.isExit = [Event.Exit 0] ∧
    printErrors pre = { events := pre.map warning, unread := [] } ∧
    (printErrors pre).events.filter Event.isExit = [] ∧
    (∀ errs : List GoError, GoError.EOF ∈ errs →
      ∃ pre1 post1, errs = pre1 ++ GoError.EOF :: post1 ∧ GoError.EOF ∉ pre1) := by
  refine ⟨printErrors_at_EOF pre post h, ?_, printErrors_no_EOF pre h, ?_,
    fun errs he => split_at_first GoError.EOF errs he⟩
  · rw [printErrors_at_EOF pre post h]
    simp [List.filter_append, filter_isExit_warning, closedNotice, Event.isExit]
  · rw [printErrors_no_EOF pre h]
    exact filter_isExit_warning pre

/-- Witness of C2: two transient errors, `io.EOF`, then two more errors. -/
theorem C2_printErrors_exits_once_at_first_EOF_witness :
    GoError.EOF ∉ [GoError.other ['a'], GoError.other ['b']] ∧
    (printErrors ([GoError.other ['a'], GoError.other ['b']] ++
        GoError.EOF :: [GoError.other ['c'], GoError.EOF])).events.filter Event.isExit
      = [Event.Exit 0] :=
  ⟨by decide,
   (C2_printErrors_exits_once_at_first_EOF [GoError.other ['a'], GoError.other ['b']]
      [GoError.other ['c'], GoError.EOF] (by decide)).2.1⟩

set_option maxRecDepth 100000 in
/-- C3, evaluated where the code departs from it.  The connection gives one
transient error, then the messages `a`, `b`, `c`.  In both schedules the loop of
`inLoop` makes four reads, sends the error on `errors`, and at the moment of each
send the slice holds `a`, then `b`, then `c`.  When the sink prints each message
before the next read, it prints `a`, `b`, `c`.  When the reader reads again
before the sink runs, the read overwrites the one buffer that the slice points
into, and the sink prints `b`, `b`, `c`: the message `a` is never printed. -/
theorem C3_sink_prints_overwritten_buffer :
    (Pipeline.run readerFirst (Pipeline.start errorThenABC)).printed =
      [Event.PrintBytes "\r< %s\n> " Colour.cyan [98],
       Event.PrintBytes "\r< %s\n> " Colour.cyan [98],
       Event.PrintBytes "\r< %s\n> " Colour.cyan [99]] ∧
    (Pipeline.run readerFirst (Pipeline.start errorThenABC)).inq = [[97], [98], [99]] ∧
    (Pipeline.run readerFirst (Pipeline.start errorThenABC)).errors =
      [GoError.other "boom".toList] ∧
    (Pipeline.run readerFirst (Pipeline.start errorThenABC)).reads = 4 ∧
    (Pipeline.run sinkFirst (Pipeline.start errorThenABC)).printed =
      [Event.PrintBytes "\r< %s\n> " Colour.cyan [97],
       Event.PrintBytes "\r< %s\n> " Colour.cyan [98],
       Event.PrintBytes "\r< %s\n> " Colour.cyan [99]] ∧
    (Pipeline.run sinkFirst (Pipeline.start errorThenABC)).inq = [[97], [98], [99]] ∧
    (Pipeline.run sinkFirst (Pipeline.start errorThenABC)).errors =
      [GoError.other "boom".toList] ∧
    (Pipeline.run sinkFirst (Pipeline.start errorThenABC)).reads = 4 := by
  refine ⟨?_, ?_, ?_, ?_, ?_, ?_, ?_, ?_⟩ <;> decide

theorem cut_of_not_mem (sep : Char) (pre post : GoString) (h : sep ∉ pre) :
    strings.cut sep (pre ++ sep :: post) = some (pre, post) := by
  induction pre with
  | nil => simp [strings.cut]
  | cons c cs ih =>
    have hc : c ≠ sep := fun hc => h (by simp [hc])
    have hcs : sep ∉ cs := fun hm => h (by simp [hm])
    simp [strings.cut, hc, ih hcs]

theorem cut_none_of_not_mem (sep : Char) (s : GoString) (h : sep ∉ s) :
    strings.cut sep s = none := by
  induction s with
  | nil => rfl
  | cons c cs ih =>
    have hc : c ≠ sep := fun hc => h (by simp [hc])
    have hcs : sep ∉ cs := fun hm => h (by simp [hm])
    simp [strings.cut, hc, ih hcs]

theorem Set_of_colon (h : Headers) (pre post : GoString) (hpre : ':' ∉ pre) :
    h.Set (pre ++ ':' :: post) =
      ({ Values := h.Values ++ [⟨strings.TrimSpace pre, strings.TrimSpace post⟩] }, none) := by
  simp [Headers.Set, strings.SplitN, cut_of_not_mem _ pre post hpre]

theorem Set_of_no_colon (h : Headers) (s : GoString) (hs : ':' ∉ s) :
    h.Set s = (h, some (GoError.other "Mallformed header".toList)) := by
  simp [Headers.Set, strings.SplitN, cut_none_of_not_mem _ s hs]

theorem head_dropWhile_false (p : Char → Bool) (l : GoString) (c : Char)
    (h : (l.dropWhile p).head? = some c) : p c = false := by
  induction l with
  | nil => simp at h
  | cons a as ih =>
    by_cases ha : p a = true
    · rw [List.dropWhile_cons_of_pos ha] at h
      exact ih h
    · rw [List.dropWhile_cons_of_neg ha] at h
      simp at h
      rw [← h]
      simpa using ha

theorem TrimSpace_spec (x : GoString) :
    (∃ l r : GoString, (∀ c ∈ l, unicode.IsSpace c = true) ∧ (∀ c ∈ r, unicode.IsSpace c = true) ∧
      x = l ++ strings.TrimSpace x ++ r) ∧
    (∀ c, (strings.TrimSpace x).head? = some c → unicode.IsSpace c = false) ∧
    (∀ c, (strings.TrimSpace x).getLast? = some c → unicode.IsSpace c = false) := by
  have hy : (x.dropWhile unicode.IsSpace) =
      strings.TrimSpace x ++
        ((x.dropWhile unicode.IsSpace).reverse.takeWhile unicode.IsSpace).reverse := by
    have := List.takeWhile_append_dropWhile unicode.IsSpace
      (x.dropWhile unicode.IsSpace).reverse
    have h2 := congrArg List.reverse this
    rw [List.reverse_append, List.reverse_reverse] at h2
    exact h2.symm
  refine ⟨⟨x.takeWhile unicode.IsSpace,
    ((x.dropWhile unicode.IsSpace).reverse.takeWhile unicode.IsSpace).reverse, ?_, ?_, ?_⟩, ?_, ?_⟩
  · intro c hc
    exact List.mem_takeWhile_imp hc
  · intro c hc
    exact List.mem_takeWhile_imp (List.mem_reverse.mp hc)
  · rw [List.append_assoc, ← hy, List.takeWhile_append_dropWhile]
  · intro c hc
    have hne : strings.TrimSpace x ≠ [] := by
      intro h0
      rw [h0] at hc
      simp at hc
    have : (x.dropWhile unicode.IsSpace).head? = some c := by
      rw [hy, List.head?_append_of_ne_nil _ hne]
      exact hc
    exact head_dropWhile_false _ _ _ this
  · intro c hc
    rw [strings.TrimSpace, List.getLast?_reverse] at hc
    exact head_dropWhile_false _ _ _ hc

/-- C10: for every string `s` that contains a colon, `Headers.Set(s)` returns no
error and appends one `Header` after the entries already there: with `pre` the
text before the first colon and `post` all the text after it, the name is
`TrimSpace(pre)` and the value `TrimSpace(post)`, where `TrimSpace` removes white
space at both ends and nothing else.  `"Name: Value"` and `"Name:Value"` both give
the header `Name`, `Value`, and `"Host: a:80"` gives the value `a:80`. -/
theorem C10_Set_splits_at_first_colon (h : Headers) (s : GoString) (hs : ':' ∈ s) :
    (∃ pre post : GoString, s = pre ++ ':' :: post ∧ ':' ∉ pre ∧
      h.Set s =
        ({ Values := h.Values ++ [⟨strings.TrimSpace pre, strings.TrimSpace post⟩] }, none)) ∧
    (∀ x : GoString,
      (∃ l r : GoString, (∀ c ∈ l, unicode.IsSpace c = true) ∧
        (∀ c ∈ r, unicode.IsSpace c = true) ∧ x = l ++ strings.TrimSpace x ++ r) ∧
      (∀ c, (strings.TrimSpace x).head? = some c → unicode.IsSpace c = false) ∧
      (∀ c, (strings.TrimSpace x).getLast? = some c → unicode.IsSpace c = false)) ∧
    h.Set "Name: Value".toList = ({ Values := h.Values ++ [⟨"Name".toList, "Value".toList⟩] }, none) ∧
    h.Set "Name:Value".toList = ({ Values := h.Values ++ [⟨"Name".toList, "Value".toList⟩] }, none) ∧
    h.Set "Host: a:80".toList = ({ Values := h.Values ++ [⟨"Host".toList, "a:80".toList⟩] }, none) := by
  refine ⟨?_, TrimSpace_spec, ?_, ?_, ?_⟩
  · obtain ⟨pre, post, hsplit, hpre⟩ := split_at_first ':' s hs
    exact ⟨pre, post, hsplit, hpre, by rw [hsplit]; exact Set_of_colon h pre post hpre⟩
  · have e := Set_of_colon h "Name".toList " Value".toList (by decide)
    have t1 : strings.TrimSpace "Name".toList = "Name".toList := by decide
    have t2 : strings.TrimSpace " Value".toList = "Value".toList := by decide
    rw [t1, t2] at e
    exact e
  · have e := Set_of_colon h "Name".toList "Value".toList (by decide)
    have t1 : strings.TrimSpace "Name".toList = "Name".toList := by decide
    have t2 : strings.TrimSpace "Value".toList = "Value".toList := by decide
    rw [t1, t2] at e
    exact e
  · have e := Set_of_colon h "Host".toList " a:80".toList (by decide)
    have t1 : strings.TrimSpace "Host".toList = "Host".toList := by decide
    have t2 : strings.TrimSpace " a:80".toList = "a:80".toList := by decide
    rw [t1, t2] at e
    exact e

/-- Witness of C10: `Set("Host: a:80")` on a list that already holds one header. -/
theorem C10_Set_splits_at_first_colon_witness :
    ':' ∈ "Host: a:80".toList ∧
    (Headers.Set { Values := [⟨['A'], ['1']⟩] } "Host: a:80".toList) =
      ({ Values := [⟨['A'], ['1']⟩, ⟨"Host".toList, "a:80".toList⟩] }, none) :=
  ⟨by decide,
   (C10_Set_splits_at_first_colon { Values := [⟨['A'], ['1']⟩] } "Host: a:80".toList
      (by decide)).2.2.2.2⟩

theorem flag_set_error (g g1 : Globals) (a : FlagArg) (e : GoError)
    (h : flag.set g a = (g1, some e)) : e = GoError.other "Mallformed header".toList := by
  cases a with
  | H v =>
    by_cases hv : ':' ∈ v
    · obtain ⟨pre, post, hsplit, hpre⟩ := split_at_first ':' v hv
      simp [flag.set, hsplit, Set_of_colon _ pre post hpre] at h
    · simp [flag.set, Set_of_no_colon _ v hv] at h
      exact h.2.symm
  | _ => simp [flag.set] at h

theorem flag_Parse_malformed (s : GoString) (hs : ':' ∉ s) (args : List FlagArg)
    (hmem : FlagArg.H s ∈ args) (g : Globals) :
    (flag.Parse args g).2 = some (GoError.other "Mallformed header".toList) := by
  induction args generalizing g with
  | nil => simp at hmem
  | cons a rest ih =>
    rcases hset : flag.set g a with ⟨g1, err⟩
    cases err with
    | some e =>
      simp only [flag.Parse, hset]
      rw [flag_set_error g g1 a e hset]
    | none =>
      simp only [flag.Parse, hset]
      rcases List.mem_cons.mp hmem with h1 | h1
      · rw [← h1] at hset
        simp [flag.set, Set_of_no_colon _ s hs] at hset
      · exact ih h1 g1

theorem main_of_parse_error (env : Env) (arg0 stdin : GoString) (args : List FlagArg)
    (e : GoError) (h : (flag.Parse args init).2 = some e) :
    main env arg0 args stdin = [Event.flagError e, Event.Exit 2] := by
  rcases hp : flag.Parse args init with ⟨g, err⟩
  rw [hp] at h
  simp only at h
  subst h
  simp only [main, hp]

/-- C5: `Headers.Set(s)` returns an error exactly when `s` contains no colon, and
then leaves the header list as it was.  When a `-H` flag on the command line has
a value without a colon, whatever the other flags, `main` does nothing but
report the flag error and exit with status 2: `dial` is not called, so no
connection is attempted or created. -/
theorem C5_Set_rejects_header_without_colon (h : Headers) (s : GoString) :
    ((h.Set s).2 ≠ none ↔ ':' ∉ s) ∧
    (':' ∉ s → (h.Set s).1 = h) ∧
    (':' ∉ s → ∀ (env : Env) (arg0 stdin : GoString) (args : List FlagArg),
      FlagArg.H s ∈ args →
        main env arg0 args stdin =
          [Event.flagError (GoError.other "Mallformed header".toList), Event.Exit 2] ∧
        (main env arg0 args stdin).filter Event.isDial = []) := by
  refine ⟨?_, ?_, ?_⟩
  · by_cases hs : ':' ∈ s
    · obtain ⟨pre, post, hsplit, hpre⟩ := split_at_first ':' s hs
      simp [hsplit, Set_of_colon h pre post hpre]
    · simp [hs, Set_of_no_colon h s hs]
  · intro hs
    rw [Set_of_no_colon h s hs]
  · intro hs env arg0 stdin args hmem
    have hm := main_of_parse_error env arg0 stdin args _
      (flag_Parse_malformed s hs args hmem init)
    refine ⟨hm, ?_⟩
    rw [hm]
    rfl

/-- Witness of C5: the command line `-version -H badheader -H "A: 1"`. -/
theorem C5_Set_rejects_header_without_colon_witness :
    ':' ∉ "badheader".toList ∧
    FlagArg.H "badheader".toList ∈
      [FlagArg.version true, FlagArg.H "badheader".toList, FlagArg.H "A: 1".toList] ∧
    main (tlsServer true) "wsd".toList
        [FlagArg.version true, FlagArg.H "badheader".toList, FlagArg.H "A: 1".toList] []
      = [Event.flagError (GoError.other "Mallformed header".toList), Event.Exit 2] :=
  ⟨by decide, by decide,
   ((C5_Set_rejects_header_without_colon { Values := [] } "badheader".toList).2.2 (by decide)
      (tlsServer true) "wsd".toList []
      [FlagArg.version true, FlagArg.H "badheader".toList, FlagArg.H "A: 1".toList]
      (by decide)).1⟩

theorem foldl_Add_apply (vs : List Header) (hh : http.Header) (k : GoString) :
    (vs.foldl (fun acc v => http.Header.Add acc v.H v.V) hh) k =
      hh k ++ (vs.filter fun v => decide (k = textproto.CanonicalMIMEHeaderKey v.H)).map
        (fun v => v.V) := by
  induction vs generalizing hh with
  | nil => simp
  | cons v rest ih =>
    rw [List.foldl_cons, ih]
    by_cases hk : k = textproto.CanonicalMIMEHeaderKey v.H
    · simp [http.Header.Add, hk]
    · simp [http.Header.Add, hk]

theorem PopulateHttp_apply (h : Headers) (k : GoString) :
    h.PopulateHttp http.Header.empty k =
      (h.Values.filter fun v => decide (k = textproto.CanonicalMIMEHeaderKey v.H)).map
        (fun v => v.V) := by
  rw [Headers.PopulateHttp, foldl_Add_apply]
  simp [http.Header.empty]

theorem flag_Parse_headers (hs : List (GoString × GoString)) (hwf : ∀ p ∈ hs, ':' ∉ p.1)
    (g : Globals) :
    flag.Parse (hs.map fun p => FlagArg.H (p.1 ++ ':' :: p.2)) g =
      ({ g with
          headers := Headers.mk (g.headers.Values ++
            hs.map (fun p => ⟨strings.TrimSpace p.1, strings.TrimSpace p.2⟩)) }, none) := by
  induction hs generalizing g with
  | nil => simp [flag.Parse]
  | cons p rest ih =>
    have hp : ':' ∉ p.1 := hwf p (by simp)
    have hrest : ∀ q ∈ rest, ':' ∉ q.1 := fun q hq => hwf q (by simp [hq])
    simp only [List.map_cons, flag.Parse, flag.set, Set_of_colon _ p.1 p.2 hp]
    rw [ih hrest]
    simp

theorem dial_of_parse_ok (env : Env) (b : Bool) (url protocol origin : GoString)
    (headers : Headers) (h1 : env.ParseRequestURI url = none)
    (h2 : env.ParseRequestURI origin = none) :
    ∃ cfg : websocket.Config,
      cfg.Location = url ∧ cfg.Origin = origin ∧
      cfg.Protocol = (if protocol ≠ [] then [protocol] else []) ∧
      cfg.TlsConfig = some { InsecureSkipVerify := b } ∧
      cfg.Header = headers.PopulateHttp http.Header.empty ∧
      (dial env b url protocol origin headers).config = some cfg ∧
      (dial env b url protocol origin headers).ws = (env.DialConfig cfg).1 ∧
      (dial env b url protocol origin headers).err = (env.DialConfig cfg).2 := by
  refine ⟨{ Location := url, Origin := origin,
            Protocol := if protocol ≠ [] then [protocol] else [], Version := 13,
            TlsConfig := some { InsecureSkipVerify := b },
            Header := headers.PopulateHttp http.Header.empty },
    rfl, rfl, rfl, rfl, rfl, ?_, ?_, ?_⟩ <;>
  · by_cases hp : protocol = [] <;>
    simp [dial, websocket.NewConfig, h1, h2, hp]

theorem dial_of_parse_error (env : Env) (b : Bool) (url protocol origin : GoString)
    (headers : Headers)
    (h : env.ParseRequestURI url ≠ none ∨ env.ParseRequestURI origin ≠ none) :
    (dial env b url protocol origin headers).config = none ∧
    (dial env b url protocol origin headers).ws = none ∧
    (dial env b url protocol origin headers).err ≠ none := by
  cases h1 : env.ParseRequestURI url with
  | some e => simp [dial, websocket.NewConfig, h1]
  | none =>
    cases h2 : env.ParseRequestURI origin with
    | some e => simp [dial, websocket.NewConfig, h1, h2]
    | none => simp [h1, h2] at h

theorem dial_config_fields (env : Env) (b : Bool) (url protocol origin : GoString)
    (headers : Headers) (cfg : websocket.Config)
    (h : (dial env b url protocol origin headers).config = some cfg) :
    cfg.Protocol = (if protocol ≠ [] then [protocol] else []) ∧
    cfg.TlsConfig = some { InsecureSkipVerify := b } ∧
    cfg.Header = headers.PopulateHttp http.Header.empty := by
  by_cases hok : env.ParseRequestURI url = none ∧ env.ParseRequestURI origin = none
  · obtain ⟨c, _, _, hp, ht, hh, hc, _, _⟩ :=
      dial_of_parse_ok env b url protocol origin headers hok.1 hok.2
    rw [hc] at h
    cases h
    exact ⟨hp, ht, hh⟩
  · have hor : env.ParseRequestURI url ≠ none ∨ env.ParseRequestURI origin ≠ none := by
      by_contra hcon
      push_neg at hcon
      exact hok hcon
    rw [(dial_of_parse_error env b url protocol origin headers hor).1] at h
    cases h

/-- C4 as stated fails: supplied as `A: 1`, `B: 2`, `A: 3` or as `A: 1`, `A: 3`, `B: 2`,
the headers make two different lists `Values`, but `PopulateHttp` turns both into
the same `http.Header`: the map keeps `1`, `3` under `A` and `2` under `B`, not the
place of `B: 2` between the two `A` pairs.  So nothing read from the header
collection gives back the supplied order. -/
theorem C4_supplied_order_not_kept_by_header_map :
    (flag.Parse [FlagArg.H "A: 1".toList, FlagArg.H "B: 2".toList, FlagArg.H "A: 3".toList]
        init).1.headers.Values ≠
      (flag.Parse [FlagArg.H "A: 1".toList, FlagArg.H "A: 3".toList, FlagArg.H "B: 2".toList]
        init).1.headers.Values ∧
    (flag.Parse [FlagArg.H "A: 1".toList, FlagArg.H "B: 2".toList, FlagArg.H "A: 3".toList]
        init).1.headers.PopulateHttp http.Header.empty =
      (flag.Parse [FlagArg.H "A: 1".toList, FlagArg.H "A: 3".toList, FlagArg.H "B: 2".toList]
        init).1.headers.PopulateHttp http.Header.empty ∧
    ¬ ∃ entries : http.Header → List Header,
        ∀ h : Headers, entries (h.PopulateHttp http.Header.empty) = h.Values := by
  have v1 : (flag.Parse [FlagArg.H "A: 1".toList, FlagArg.H "B: 2".toList,
      FlagArg.H "A: 3".toList] init).1.headers =
      { Values := [⟨['A'], ['1']⟩, ⟨['B'], ['2']⟩, ⟨['A'], ['3']⟩] } := by decide
  have v2 : (flag.Parse [FlagArg.H "A: 1".toList, FlagArg.H "A: 3".toList,
      FlagArg.H "B: 2".toList] init).1.headers =
      { Values := [⟨['A'], ['1']⟩, ⟨['A'], ['3']⟩, ⟨['B'], ['2']⟩] } := by decide
  have cA : textproto.CanonicalMIMEHeaderKey ['A'] = ['A'] := by decide
  have cB : textproto.CanonicalMIMEHeaderKey ['B'] = ['B'] := by decide
  have heq : (Headers.mk [⟨['A'], ['1']⟩, ⟨['B'], ['2']⟩, ⟨['A'], ['3']⟩]).PopulateHttp
      http.Header.empty =
      (Headers.mk [⟨['A'], ['1']⟩, ⟨['A'], ['3']⟩, ⟨['B'], ['2']⟩]).PopulateHttp
      http.Header.empty := by
    funext k
    rw [PopulateHttp_apply, PopulateHttp_apply]
    by_cases hA : k = ['A']
    · subst hA
      simp [List.filter, cA, cB]
    · by_cases hB : k = ['B']
      · subst hB
        simp [List.filter, cA, cB]
      · simp [List.filter, cA, cB, hA, hB]
  refine ⟨?_, ?_, ?_⟩
  · rw [v1, v2]
    decide
  · rw [v1, v2]
    exact heq
  · rintro ⟨entries, hent⟩
    have e1 := hent (Headers.mk [⟨['A'], ['1']⟩, ⟨['B'], ['2']⟩, ⟨['A'], ['3']⟩])
    have e2 := hent (Headers.mk [⟨['A'], ['1']⟩, ⟨['A'], ['3']⟩, ⟨['B'], ['2']⟩])
    rw [heq, e2] at e1
    revert e1
    decide

/-- C4, amended: when the well-formed header strings `pre: post` are supplied in
order (no colon in any `pre`), the `Set` calls succeed and `Values` holds one
entry per supplied pair, in the supplied order; `PopulateHttp` then stores, under
every key, the values of exactly the pairs whose canonical name is that key, one
per pair and in their supplied order, so a repeated name keeps all its values;
and this is the header map of the configuration that `dial` hands to the
handshake. -/
theorem C4_headers_kept_per_name_in_order (hs : List (GoString × GoString))
    (hwf : ∀ p ∈ hs, ':' ∉ p.1) :
    (flag.Parse (hs.map fun p => FlagArg.H (p.1 ++ ':' :: p.2)) init).2 = none ∧
    (flag.Parse (hs.map fun p => FlagArg.H (p.1 ++ ':' :: p.2)) init).1.headers.Values =
      hs.map (fun p => ⟨strings.TrimSpace p.1, strings.TrimSpace p.2⟩) ∧
    (∀ k : GoString,
      (flag.Parse (hs.map fun p => FlagArg.H (p.1 ++ ':' :: p.2)) init).1.headers.PopulateHttp
          http.Header.empty k =
        ((hs.map (fun p => Header.mk (strings.TrimSpace p.1) (strings.TrimSpace p.2))).filter
          fun v => decide (k = textproto.CanonicalMIMEHeaderKey v.H)).map (fun v => v.V)) ∧
    (∀ (env : Env) (b : Bool) (url protocol origin : GoString) (cfg : websocket.Config),
      (dial env b url protocol origin
          (flag.Parse (hs.map fun p => FlagArg.H (p.1 ++ ':' :: p.2)) init).1.headers).config
        = some cfg →
      cfg.Header =
        (flag.Parse (hs.map fun p => FlagArg.H (p.1 ++ ':' :: p.2)) init).1.headers.PopulateHttp
          http.Header.empty) := by
  have hp := flag_Parse_headers hs hwf init
  refine ⟨?_, ?_, ?_, ?_⟩
  · rw [hp]
  · rw [hp]; simp [init]
  · intro k
    rw [PopulateHttp_apply, hp]
    simp [init]
  · intro env b url protocol origin cfg hcfg
    exact (dial_config_fields env b url protocol origin _ cfg hcfg).2.2

/-- Witness of C4: the pairs `A: 1`, `B: 2`, `A: 3`; the key `A` holds `1`, `3`. -/
theorem C4_headers_kept_per_name_in_order_witness :
    (flag.Parse ([(['A'], [' ', '1']), (['B'], [' ', '2']), (['A'], [' ', '3'])].map
        fun p => FlagArg.H (p.1 ++ ':' :: p.2)) init).1.headers.PopulateHttp
          http.Header.empty ['A'] =
      (([(['A'], [' ', '1']), (['B'], [' ', '2']), (['A'], [' ', '3'])].map
          (fun p => Header.mk (strings.TrimSpace p.1) (strings.TrimSpace p.2))).filter
        fun v => decide (['A'] = textproto.CanonicalMIMEHeaderKey v.H)).map (fun v => v.V) :=
  (C4_headers_kept_per_name_in_order
    [(['A'], [' ', '1']), (['B'], [' ', '2']), (['A'], [' ', '3'])] (by decide)).2.2.1 ['A']

theorem flag_Parse_keeps_insecureSkipVerify (args : List FlagArg)
    (hno : ∀ v, FlagArg.insecureSkipVerify v ∉ args) (g : Globals) :
    (flag.Parse args g).1.insecureSkipVerify = g.insecureSkipVerify := by
  induction args generalizing g with
  | nil => rfl
  | cons a rest ih =>
    have hrest : ∀ v, FlagArg.insecureSkipVerify v ∉ rest := fun v hm => hno v (by simp [hm])
    have hset : (flag.set g a).1.insecureSkipVerify = g.insecureSkipVerify := by
      cases a with
      | insecureSkipVerify v => exact absurd (List.mem_cons_self _ _) (hno v)
      | _ => rfl
    rcases hs : flag.set g a with ⟨g1, err⟩
    rw [hs] at hset
    cases err with
    | none =>
      simp only [flag.Parse, hs]
      rw [ih hrest g1]
      exact hset
    | some e =>
      simp only [flag.Parse, hs]
      exact hset

theorem flag_Parse_append (l1 l2 : List FlagArg) (g : Globals)
    (h : (flag.Parse (l1 ++ l2) g).2 = none) :
    flag.Parse (l1 ++ l2) g = flag.Parse l2 (flag.Parse l1 g).1 := by
  induction l1 generalizing g with
  | nil => rfl
  | cons a rest ih =>
    rcases hs : flag.set g a with ⟨g1, err⟩
    cases err with
    | none =>
      rw [List.cons_append] at h ⊢
      simp only [flag.Parse, hs] at h ⊢
      exact ih g1 h
    | some e =>
      rw [List.cons_append] at h
      simp [flag.Parse, hs] at h

theorem dial_tlsServer (certValid b : Bool) (url p origin : GoString) (headers : Headers) :
    (dial (tlsServer certValid) b url p origin headers).err =
      tls.verify (some { InsecureSkipVerify := b }) certValid ∧
    (dial (tlsServer certValid) b url p origin headers).ws =
      (if tls.verify (some { InsecureSkipVerify := b }) certValid = none then
        some { remote := url } else none) := by
  obtain ⟨c, hl, _, _, ht, _, _, hws, herr⟩ :=
    dial_of_parse_ok (tlsServer certValid) b url p origin headers rfl rfl
  rw [hws, herr]
  cases hv : tls.verify (some { InsecureSkipVerify := b }) certValid with
  | none => simp [tlsServer, ht, hv, hl]
  | some e => simp [tlsServer, ht, hv]

theorem main_of_dial (env : Env) (arg0 stdin : GoString) (args : List FlagArg) (g : Globals)
    (hparse : flag.Parse args init = (g, none))
    (hv : g.displayVersion = false) (hh : g.displayHelp = false) :
    (∀ err, (dial env g.insecureSkipVerify g.url g.protocol g.origin g.headers).err = some err →
      Event.panic err ∈ main env arg0 args stdin ∧
      Event.Printf "successfully connected to %s\n\n" [green g.url] ∉
        main env arg0 args stdin) ∧
    ((dial env g.insecureSkipVerify g.url g.protocol g.origin g.headers).err = none →
      Event.Printf "successfully connected to %s\n\n" [green g.url] ∈
        main env arg0 args stdin ∧
      (main env arg0 args stdin).filter Event.isPanic = []) := by
  constructor
  · intro err hd
    have h0 : main env arg0 args stdin =
        [Event.dial g.url g.protocol g.origin g.headers,
         (if g.protocol ≠ [] then
            Event.Printf "connecting to %s via %s from %s...\n"
              [yellow g.url, yellow g.protocol, yellow g.origin]
          else
            Event.Printf "connecting to %s from %s...\n" [yellow g.url, yellow g.origin]),
         Event.panic err,
         Event.Close
           (dial env g.insecureSkipVerify g.url g.protocol g.origin g.headers).ws.isSome] := by
      simp only [main, hparse, hv, hh, hd, Bool.false_eq_true, if_false]
    rw [h0]
    by_cases hp : g.protocol = []
    · rw [if_neg (not_not.mpr hp)]
      simp
    · rw [if_pos hp]
      simp
  · intro hd
    have h0 : main env arg0 args stdin =
        [Event.dial g.url g.protocol g.origin g.headers,
         (if g.protocol ≠ [] then
            Event.Printf "connecting to %s via %s from %s...\n"
              [yellow g.url, yellow g.protocol, yellow g.origin]
          else
            Event.Printf "connecting to %s from %s...\n" [yellow g.url, yellow g.origin]),
         Event.Printf "successfully connected to %s\n\n" [green g.url],
         Event.wgAdd 3,
         Event.makeChan "errors", Event.makeChan "in", Event.makeChan "out",
         Event.go "inLoop", Event.go "printReceivedMessages", Event.go "printErrors",
         Event.go "outLoop"]
        ++ inputLoop stdin ++ [Event.wgWait] := by
      simp only [main, hparse, hv, hh, hd, Bool.false_eq_true, if_false]
    have hin : ∀ ts : List GoString, (scanLoop ts).filter Event.isPanic = [] := by
      intro ts
      induction ts with
      | nil => rfl
      | cons t rest ih => simp [scanLoop, Event.isPanic, ih]
    rw [h0]
    constructor
    · simp
    · by_cases hp : g.protocol = []
      · rw [if_neg (not_not.mpr hp)]
        simp [List.filter_append, inputLoop, hin, Event.isPanic]
      · rw [if_pos hp]
        simp [List.filter_append, inputLoop, hin, Event.isPanic]

/-- C7: the flag variable `insecureSkipVerify` is false by default and stays false
when the command line has no `-insecureSkipVerify` flag; when the flags parse, it
has the value given by the last `-insecureSkipVerify` flag, so it is true when the
flag is set.  The TLS configuration that `dial` hands to the handshake has
`InsecureSkipVerify` equal to that variable, and `dial` returns what the handshake
returns on that configuration.  Against a server with an invalid certificate
`dial` succeeds exactly when the variable is true, and against one with a valid
certificate always.  So `main`, against the server with the invalid certificate,
panics with the handshake error when the flag is unset, and prints the success
message without panicking when it is set. -/
theorem C7_dial_skips_verification_iff_flag_set :
    init.insecureSkipVerify = false ∧
    (∀ args : List FlagArg, (∀ v, FlagArg.insecureSkipVerify v ∉ args) →
      (flag.Parse args init).1.insecureSkipVerify = false) ∧
    (∀ (args1 args2 : List FlagArg) (v : Bool),
      (flag.Parse (args1 ++ FlagArg.insecureSkipVerify v :: args2) init).2 = none →
      (∀ w, FlagArg.insecureSkipVerify w ∉ args2) →
      (flag.Parse (args1 ++ FlagArg.insecureSkipVerify v :: args2)
        init).1.insecureSkipVerify = v) ∧
    (∀ (env : Env) (b : Bool) (url p origin : GoString) (headers : Headers),
      (dial env b url p origin headers).config.map (fun c => c.TlsConfig) =
        (if env.ParseRequestURI url = none ∧ env.ParseRequestURI origin = none then
          some (some { InsecureSkipVerify := b })
        else none)) ∧
    (∀ (env : Env) (b : Bool) (url p origin : GoString) (headers : Headers)
        (cfg : websocket.Config),
      (dial env b url p origin headers).config = some cfg →
      cfg.TlsConfig = some { InsecureSkipVerify := b } ∧
      (dial env b url p origin headers).ws = (env.DialConfig cfg).1 ∧
      (dial env b url p origin headers).err = (env.DialConfig cfg).2) ∧
    (∀ (b : Bool) (url p origin : GoString) (headers : Headers),
      ((dial (tlsServer false) b url p origin headers).err = none ↔ b = true) ∧
      ((dial (tlsServer false) b url p origin headers).ws = some { remote := url } ↔
        b = true) ∧
      (dial (tlsServer true) b url p origin headers).err = none) ∧
    (∀ (arg0 stdin : GoString) (args : List FlagArg) (g : Globals),
      flag.Parse args init = (g, none) → g.displayVersion = false → g.displayHelp = false →
      (g.insecureSkipVerify = false →
        (∃ err, Event.panic err ∈ main (tlsServer false) arg0 args stdin) ∧
        Event.Printf "successfully connected to %s\n\n" [green g.url] ∉
          main (tlsServer false) arg0 args stdin) ∧
      (g.insecureSkipVerify = true →
        Event.Printf "successfully connected to %s\n\n" [green g.url] ∈
          main (tlsServer false) arg0 args stdin ∧
        (main (tlsServer false) arg0 args stdin).filter Event.isPanic = [])) := by
  refine ⟨rfl, ?_, ?_, ?_, ?_, ?_, ?_⟩
  · intro args hno
    rw [flag_Parse_keeps_insecureSkipVerify args hno init]
    rfl
  · intro args1 args2 v hok hno
    rw [flag_Parse_append args1 _ init hok]
    have hset : flag.Parse (FlagArg.insecureSkipVerify v :: args2) (flag.Parse args1 init).1 =
        flag.Parse args2 { (flag.Parse args1 init).1 with insecureSkipVerify := v } := by
      simp only [flag.Parse, flag.set]
    rw [hset, flag_Parse_keeps_insecureSkipVerify args2 hno]
  · intro env b url p origin headers
    by_cases hok : env.ParseRequestURI url = none ∧ env.ParseRequestURI origin = none
    · obtain ⟨c, _, _, _, ht, _, hc, _, _⟩ :=
        dial_of_parse_ok env b url p origin headers hok.1 hok.2
      rw [hc, if_pos hok, Option.map_some', ht]
    · have hor : env.ParseRequestURI url ≠ none ∨ env.ParseRequestURI origin ≠ none := by
        by_contra hcon
        push_neg at hcon
        exact hok hcon
      rw [(dial_of_parse_error env b url p origin headers hor).1, if_neg hok]
      rfl
  · intro env b url p origin headers cfg hcfg
    by_cases hok : env.ParseRequestURI url = none ∧ env.ParseRequestURI origin = none
    · obtain ⟨c, _, _, _, ht, _, hc, hws, herr⟩ :=
        dial_of_parse_ok env b url p origin headers hok.1 hok.2
      rw [hc] at hcfg
      cases hcfg
      exact ⟨ht, hws, herr⟩
    · have hor : env.ParseRequestURI url ≠ none ∨ env.ParseRequestURI origin ≠ none := by
        by_contra hcon
        push_neg at hcon
        exact hok hcon
      rw [(dial_of_parse_error env b url p origin headers hor).1] at hcfg
      cases hcfg
  · intro b url p origin headers
    rw [(dial_tlsServer false b url p origin headers).1,
      (dial_tlsServer false b url p origin headers).2,
      (dial_tlsServer true b url p origin headers).1]
    cases b <;> simp [tls.verify]
  · intro arg0 stdin args g hparse hv hh
    obtain ⟨hfail, hok⟩ := main_of_dial (tlsServer false) arg0 stdin args g hparse hv hh
    constructor
    · intro hb
      have hd := (dial_tlsServer false g.insecureSkipVerify g.url g.protocol g.origin
        g.headers).1
      rw [hb] at hd
      have hd2 : (dial (tlsServer false) g.insecureSkipVerify g.url g.protocol g.origin
          g.headers).err = some (GoError.other "x509: certificate is not valid".toList) := by
        rw [hb, hd]
        rfl
      exact ⟨⟨_, (hfail _ hd2).1⟩, (hfail _ hd2).2⟩
    · intro hb
      have hd := (dial_tlsServer false g.insecureSkipVerify g.url g.protocol g.origin
        g.headers).1
      have hd2 : (dial (tlsServer false) g.insecureSkipVerify g.url g.protocol g.origin
          g.headers).err = none := by
        rw [hd, hb]
        rfl
      exact hok hd2

/-- Witness of C7: on the command line `-url wss://example.org/ -insecureSkipVerify
-H "A: 1"` the variable is true, and `main`, against a server whose certificate
is not valid, prints the success message. -/
theorem C7_dial_skips_verification_iff_flag_set_witness :
    (flag.Parse [FlagArg.url "wss://example.org/".toList, FlagArg.insecureSkipVerify true,
      FlagArg.H "A: 1".toList] init).1.insecureSkipVerify = true ∧
    Event.Printf "successfully connected to %s\n\n" [green "wss://example.org/".toList] ∈
      main (tlsServer false) "wsd".toList
        [FlagArg.url "wss://example.org/".toList, FlagArg.insecureSkipVerify true,
          FlagArg.H "A: 1".toList] [] :=
  ⟨C7_dial_skips_verification_iff_flag_set.2.2.1
      [FlagArg.url "wss://example.org/".toList] [FlagArg.H "A: 1".toList] true
      (by decide) (by intro w; cases w <;> decide),
   ((C7_dial_skips_verification_iff_flag_set.2.2.2.2.2.2 "wsd".toList []
      [FlagArg.url "wss://example.org/".toList, FlagArg.insecureSkipVerify true,
        FlagArg.H "A: 1".toList]
      (flag.Parse [FlagArg.url "wss://example.org/".toList, FlagArg.insecureSkipVerify true,
        FlagArg.H "A: 1".toList] init).1
      (by decide) (by decide) (by decide)).2 (by decide)).1⟩

/-- C9: when the flags parse, neither `-version` nor `-help` is set, and `dial`
returns the error `err`, `main` does four things: it calls `dial`, prints the
"connecting to" line, panics with `err`, and runs the deferred `ws.Close()`.  It
creates no queue, starts no loop, prints neither the success message nor a
prompt, and reads no operator input. -/
theorem C9_main_aborts_on_dial_error (env : Env) (arg0 stdin : GoString)
    (args : List FlagArg) (g : Globals) (err : GoError)
    (hparse : flag.Parse args init = (g, none))
    (hv : g.displayVersion = false) (hh : g.displayHelp = false)
    (hd : (dial env g.insecureSkipVerify g.url g.protocol g.origin g.headers).err = some err) :
    (∃ (format : String) (fargs : List Arg) (live : Bool),
      format ≠ "successfully connected to %s\n\n" ∧
      main env arg0 args stdin =
        [Event.dial g.url g.protocol g.origin g.headers, Event.Printf format fargs,
         Event.panic err, Event.Close live]) ∧
    (main env arg0 args stdin).filter Event.isPipeline = [] ∧
    sentOut (main env arg0 args stdin) = [] ∧
    prompts (main env arg0 args stdin) = 0 := by
  have hmain : ∃ (format : String) (fargs : List Arg) (live : Bool),
      format ≠ "successfully connected to %s\n\n" ∧
      main env arg0 args stdin =
        [Event.dial g.url g.protocol g.origin g.headers, Event.Printf format fargs,
         Event.panic err, Event.Close live] := by
    have h0 : main env arg0 args stdin =
        [Event.dial g.url g.protocol g.origin g.headers,
         (if g.protocol ≠ [] then
            Event.Printf "connecting to %s via %s from %s...\n"
              [yellow g.url, yellow g.protocol, yellow g.origin]
          else
            Event.Printf "connecting to %s from %s...\n" [yellow g.url, yellow g.origin]),
         Event.panic err,
         Event.Close
           (dial env g.insecureSkipVerify g.url g.protocol g.origin g.headers).ws.isSome] := by
      simp only [main, hparse, hv, hh, hd, Bool.false_eq_true, if_false]
    by_cases hp : g.protocol = []
    · refine ⟨"connecting to %s from %s...\n", [yellow g.url, yellow g.origin],
        (dial env g.insecureSkipVerify g.url g.protocol g.origin g.headers).ws.isSome,
        by decide, ?_⟩
      rw [h0, if_neg (not_not.mpr hp)]
    · refine ⟨"connecting to %s via %s from %s...\n",
        [yellow g.url, yellow g.protocol, yellow g.origin],
        (dial env g.insecureSkipVerify g.url g.protocol g.origin g.headers).ws.isSome,
        by decide, ?_⟩
      rw [h0, if_pos hp]
  obtain ⟨format, fargs, live, hne, hm⟩ := hmain
  refine ⟨⟨format, fargs, live, hne, hm⟩, ?_, ?_, ?_⟩
  · have hb : (format == "successfully connected to %s\n\n") = false :=
      beq_eq_false_iff_ne.mpr hne
    rw [hm]
    simp [List.filter, Event.isPipeline, hb]
  · rw [hm]
    rfl
  · rw [hm]
    simp [prompts]

/-- Witness of C9: no flags, and a server whose certificate is not valid. -/
theorem C9_main_aborts_on_dial_error_witness :
    (main (tlsServer false) "wsd".toList [] "hello\n".toList).filter Event.isPipeline = [] :=
  (C9_main_aborts_on_dial_error (tlsServer false) "wsd".toList "hello\n".toList [] init
    (GoError.other "x509: certificate is not valid".toList) rfl rfl rfl rfl).2.1

theorem byteLen_append (a b : GoString) : byteLen (a ++ b) = byteLen a + byteLen b := by
  induction a with
  | nil => simp [byteLen]
  | cons c cs ih => simp [byteLen, ih, Nat.add_assoc]

end wsd
